import Mathlib

/-!
A shallow embedding of the jlox front end: the scanner of
`src/jlox/src/scanner.rs`, the expression data model of `src/jlox/src/expr.rs`
and the recursive-descent parser of `src/jlox/src/parser.rs`, together with
theorems about the properties claimed of them.

Conventions of the embedding:
* The scanner's `source: Vec<char>` / `current` cursor pair is represented by
  the remaining suffix of the character list; each helper documents the Rust
  loop or method it translates.
* Rust `usize` indexing panics are modelled explicitly (`none` results or
  dedicated `panic` constructors), never silently defaulted.
* `f64` number literals are modelled as exact rationals obtained from the
  decimal lexeme; on the integer-valued lexemes appearing in this development
  the `f64` parse is exact, so the models agree.
* Character classification is modelled on the ASCII fragment, where Rust's
  Unicode `is_alphabetic`/`is_alphanumeric` coincide with the ASCII classes;
  every concrete input in this development is ASCII.
-/

namespace Jlox

/-- Token kinds, from `scanner.rs` `enum TokenType`. -/
inductive TokenType where
  | LEFT_PAREN | RIGHT_PAREN | LEFT_BRACE | RIGHT_BRACE
  | COMMA | DOT | MINUS | PLUS | SEMICOLON | SLASH | STAR
  | BANG | BANG_EQUAL | EQUAL | EQUAL_EQUAL
  | GREATER | GREATER_EQUAL | LESS | LESS_EQUAL
  | IDENTIFIER | STRING | NUMBER
  | AND | CLASS | ELSE | FALSE | FUN | FOR | IF | NIL | OR
  | PRINT | RETURN | SUPER | THIS | TRUE | VAR | WHILE
  | EOF
  deriving DecidableEq, Repr

/-- Literal payloads, from `scanner.rs` `enum Literal` (`Str(String)`,
`Number(f64)`); the `f64` is modelled as an exact rational. -/
inductive SLiteral where
  | Str (s : String)
  | Number (v : ℚ)
  deriving DecidableEq, Repr

/-- A token, from `scanner.rs` `struct Token`. -/
structure Token where
  token_type : TokenType
  lexeme : String
  literal : Option SLiteral
  line : Nat
  deriving DecidableEq, Repr

/-- One diagnostic accepted by the sink `lox::Lox::report(line, arg_where,
message)`. -/
structure Diag where
  line : Nat
  arg_where : String
  msg : String
  deriving DecidableEq, Repr

/-- Rust `char::is_ascii_digit`. -/
def char_is_ascii_digit (c : Char) : Bool := '0' ≤ c && c ≤ '9'

/-- Rust `char::is_alphabetic`, on the ASCII fragment exercised here (the
Unicode `Alphabetic` property coincides with `A..Z ∪ a..z` on ASCII). -/
def char_is_alphabetic (c : Char) : Bool := c.isAlpha

/-- Rust `char::is_alphanumeric` (Unicode alphabetic or numeric), ASCII
fragment.  The underscore is NOT alphanumeric; this is the method that
`Scanner::identifier` actually calls via `self.peek().is_alphanumeric()`. -/
def char_is_alphanumeric (c : Char) : Bool := c.isAlpha || c.isDigit

/-- `Scanner::is_alpha`: `c.is_alphabetic() || c == '_'`. -/
def Scanner.is_alpha (c : Char) : Bool := char_is_alphabetic c || c = '_'

/-- `Scanner::is_alphanumeric`: `Scanner::is_alpha(c) || c.is_ascii_digit()`.
Present in the source but never called: `identifier` calls the `char` method
`is_alphanumeric` instead. -/
def Scanner.is_alphanumeric (c : Char) : Bool :=
  Scanner.is_alpha c || char_is_ascii_digit c

/-- `Scanner::peek` seen from the remaining input suffix: the current
character, or the null character at end of input. -/
def peek_suffix (rest : List Char) : Char := rest.headD (Char.ofNat 0)

/-- The comment loop of `scan_token`'s `'/'` branch: the number of characters
consumed by `while peek() != '\n' && !is_at_end() { advance() }`. -/
def comment_run : List Char → Nat
  | [] => 0
  | c :: rest => if c = '\n' then 0 else comment_run rest + 1

/-- The digit loops of `Scanner::number`:
`while peek().is_ascii_digit() { advance() }`. -/
def digit_run : List Char → Nat
  | [] => 0
  | c :: rest => if char_is_ascii_digit c then digit_run rest + 1 else 0

/-- The identifier loop of `Scanner::identifier`:
`while peek().is_alphanumeric() { advance() }`. -/
def ident_run : List Char → Nat
  | [] => 0
  | c :: rest => if char_is_alphanumeric c then ident_run rest + 1 else 0

/-- The string loop of `Scanner::string` (`while peek() != '"' &&
!is_at_end()`): characters consumed, and embedded newlines found. -/
def string_run : List Char → Nat × Nat
  | [] => (0, 0)
  | c :: rest =>
    if c = '"' then (0, 0)
    else
      let p := string_run rest
      (p.1 + 1, if c = '\n' then p.2 + 1 else p.2)

/-- The cursor displacement of `Scanner::number` after its leading digit was
consumed: the integer digit run, then optionally a `.` and a fractional digit
run — the `.` is consumed only when `peek() == '.'` and `peek_next()` is an
ASCII digit. -/
def number_tail (rest : List Char) : Nat :=
  let n := digit_run rest
  let after := rest.drop n
  if peek_suffix after = '.' && char_is_ascii_digit (peek_suffix (after.drop 1))
  then n + 1 + digit_run (after.drop 1)
  else n

/-- Decimal digits to a natural number (accumulator form). -/
def digits_val : List Char → Nat → Nat
  | [], acc => acc
  | c :: r, acc => digits_val r (acc * 10 + (c.toNat - 48))

/-- Models `str::parse::<f64>()` applied to a scanner number lexeme (digits,
optionally a dot and more digits) as an exact rational; for the
integer-valued lexemes of this development the `f64` value is exact and
agrees with this rational. -/
def number_value (l : List Char) : ℚ :=
  let intPart := l.takeWhile char_is_ascii_digit
  let rest := l.dropWhile char_is_ascii_digit
  match rest with
  | '.' :: frac => (digits_val intPart 0 : ℚ) + (digits_val frac 0 : ℚ) / (10 : ℚ) ^ frac.length
  | _ => (digits_val intPart 0 : ℚ)

/-- The keyword table built in `Scanner::new`. -/
def keywords : List (String × TokenType) :=
  [("and", .AND), ("class", .CLASS), ("else", .ELSE), ("false", .FALSE),
   ("for", .FOR), ("fun", .FUN), ("if", .IF), ("nil", .NIL), ("or", .OR),
   ("print", .PRINT), ("return", .RETURN), ("super", .SUPER), ("this", .THIS),
   ("true", .TRUE), ("var", .VAR), ("while", .WHILE)]

/-- Result of one `Scanner::scan_token` call, relative to the remaining
input: characters consumed (including the initial `advance`), the updated
line counter, tokens pushed, diagnostics reported; or a panic (the
out-of-bounds `source[current]` index in `advance`). -/
inductive ScanStep where
  | ok (consumed : Nat) (line : Nat) (toks : List Token) (diags : List Diag)
  | panic (diags : List Diag)
  deriving DecidableEq, Repr

/-- Result of `Scanner::scan_tokens`: tokens plus diagnostics, or a panic
carrying the diagnostics reported before it.  `fuelOut` is an artifact of the
fuel parameter of `scan_tokens_loop`, unreachable for the fuel `scan`
supplies (every step consumes at least one character). -/
inductive ScanRes where
  | ok (toks : List Token) (diags : List Diag)
  | panic (diags : List Diag)
  | fuelOut
  deriving DecidableEq, Repr

/-- The token built by `add_token_literal` for a lexeme of `k` characters
starting at the head of `src` (`source[start..current]`). -/
def mk_token (tt : TokenType) (src : List Char) (k : Nat) (lit : Option SLiteral)
    (line : Nat) : Token :=
  ⟨tt, String.mk (src.take k), lit, line⟩

/-- `Scanner::scan_token`, as a function of the remaining input: `c` is the
character returned by the initial `advance()`, `rest` the input after it and
`line` the current line counter. -/
def scan_token (c : Char) (rest : List Char) (line : Nat) : ScanStep :=
  let src := c :: rest
  match c with
  | '(' => .ok 1 line [mk_token .LEFT_PAREN src 1 none line] []
  | ')' => .ok 1 line [mk_token .RIGHT_PAREN src 1 none line] []
  | '{' => .ok 1 line [mk_token .LEFT_BRACE src 1 none line] []
  | '}' => .ok 1 line [mk_token .RIGHT_BRACE src 1 none line] []
  | ',' => .ok 1 line [mk_token .COMMA src 1 none line] []
  | '.' => .ok 1 line [mk_token .DOT src 1 none line] []
  | '-' => .ok 1 line [mk_token .MINUS src 1 none line] []
  | '+' => .ok 1 line [mk_token .PLUS src 1 none line] []
  | ';' => .ok 1 line [mk_token .SEMICOLON src 1 none line] []
  | '*' => .ok 1 line [mk_token .STAR src 1 none line] []
  | '!' =>
    match rest with
    | '=' :: _ => .ok 2 line [mk_token .BANG_EQUAL src 2 none line] []
    | _ => .ok 1 line [mk_token .BANG src 1 none line] []
  | '=' =>
    match rest with
    | '=' :: _ => .ok 2 line [mk_token .EQUAL_EQUAL src 2 none line] []
    | _ => .ok 1 line [mk_token .EQUAL src 1 none line] []
  | '<' =>
    match rest with
    | '=' :: _ => .ok 2 line [mk_token .LESS_EQUAL src 2 none line] []
    | _ => .ok 1 line [mk_token .LESS src 1 none line] []
  | '>' =>
    match rest with
    | '=' :: _ => .ok 2 line [mk_token .GREATER_EQUAL src 2 none line] []
    | _ => .ok 1 line [mk_token .GREATER src 1 none line] []
  | '/' =>
    match rest with
    | '/' :: body => .ok (2 + comment_run body) line [] []
    | _ => .ok 1 line [mk_token .SLASH src 1 none line] []
  | ' ' => .ok 1 line [] []
  | '\r' => .ok 1 line [] []
  | '\t' => .ok 1 line [] []
  | '\n' => .ok 1 (line + 1) [] []
  | '"' =>
    let p := string_run rest
    let line2 := line + p.2
    if p.1 < rest.length then
      -- the loop stopped on a closing quote, which `advance()` then consumes;
      -- the literal value is `source[start+1..current-1]`
      .ok (p.1 + 2) line2
        [mk_token .STRING src (p.1 + 2) (some (.Str (String.mk (rest.take p.1)))) line2] []
    else
      -- `is_at_end()`: "Unterminated string." is reported and then the
      -- unconditional `advance()` indexes `source[current]` out of bounds
      .panic [⟨line2, "", "Unterminated string."⟩]
  | _ =>
    if char_is_ascii_digit c then
      let k := 1 + number_tail rest
      .ok k line [mk_token .NUMBER src k (some (.Number (number_value (src.take k)))) line] []
    else if Scanner.is_alpha c then
      let k := 1 + ident_run rest
      let text := String.mk (src.take k)
      .ok k line [mk_token ((keywords.lookup text).getD .IDENTIFIER) src k none line] []
    else
      .ok 1 line [] [⟨line, "", "Unexpected character."⟩]

/-- The `while !self.is_at_end()` loop of `Scanner::scan_tokens`, followed by
the final `EOF` push.  The fuel bounds the number of iterations; `scan`
passes the input length, which suffices because every `scan_token` consumes
at least one character. -/
def scan_tokens_loop : Nat → List Char → Nat → List Token → List Diag → ScanRes
  | _, [], line, toks, diags => .ok (toks ++ [⟨.EOF, "", none, line⟩]) diags
  | 0, _ :: _, _, _, _ => .fuelOut
  | fuel + 1, c :: rest, line, toks, diags =>
    match scan_token c rest line with
    | .panic ds => .panic (diags ++ ds)
    | .ok k line2 ts ds =>
      scan_tokens_loop fuel (rest.drop (k - 1)) line2 (toks ++ ts) (diags ++ ds)

/-- `Scanner::new(source)` followed by `Scanner::scan_tokens`: cursor 0,
line 1, empty token and diagnostic lists. -/
def scan (source : String) : ScanRes :=
  scan_tokens_loop source.data.length source.data 1 [] []

/-- `expr.rs` `enum Literal`. -/
inductive ELiteral where
  | Number (v : ℚ)
  | Str (s : String)
  | True
  | False
  | Nil
  deriving DecidableEq, Repr

/-- `expr.rs` `enum BinaryOp`. -/
inductive BinaryOp where
  | EqualEqual | BangEqual | Less | LessEqual | Greater | GreaterEqual
  | Plus | Minus | Star | Slash
  deriving DecidableEq, Repr

/-- `expr.rs` `enum UnaryOp`. -/
inductive UnaryOp where
  | Minus | Bang
  deriving DecidableEq, Repr

/-- `expr.rs` `enum Expr`. -/
inductive Expr where
  | Literal (l : ELiteral)
  | Unary (op : UnaryOp) (e : Expr)
  | Binary (lhs : Expr) (op : BinaryOp) (rhs : Expr)
  | Grouping (e : Expr)
  deriving DecidableEq, Repr

namespace Parser

/-- Result of one parser production: the built expression, new cursor and
accumulated diagnostics; a propagated `ParseError`; a panic from an
out-of-bounds token index in `peek`/`previous`; a panic from the `panic!`
branches of the operator-mapping functions; or fuel exhaustion (an artifact
of the fuel parameter of the productions). -/
inductive PRes where
  | ok (e : Expr) (c : Nat) (ds : List Diag)
  | err (c : Nat) (ds : List Diag)
  | panicIdx
  | panicOp
  | fuelOut
  deriving DecidableEq, Repr

/-- `Parser::peek`: `&self.tokens[self.current]`; `none` models the panic on
an out-of-bounds index. -/
def peek (tks : List Token) (c : Nat) : Option Token := tks.get? c

/-- `Parser::previous`: `&self.tokens[self.current - 1]`; `none` models the
panic on `usize` underflow (`current = 0`) or an out-of-bounds index. -/
def previous (tks : List Token) (c : Nat) : Option Token :=
  match c with
  | 0 => none
  | k + 1 => tks.get? k

/-- `Parser::check`: `false` at `EOF`, else compares the peeked kind; `none`
propagates the panic of the inner `peek`. -/
def check (tks : List Token) (c : Nat) (tt : TokenType) : Option Bool :=
  match peek tks c with
  | none => none
  | some tok =>
    some (if tok.token_type = .EOF then false else decide (tok.token_type = tt))

/-- `Parser::advance`: increments the cursor unless `is_at_end()`, then
returns `previous()`; `none` propagates a panic of `peek` or `previous`. -/
def advance (tks : List Token) (c : Nat) : Option (Token × Nat) :=
  match peek tks c with
  | none => none
  | some tok =>
    let c2 := if tok.token_type = .EOF then c else c + 1
    match previous tks c2 with
    | none => none
    | some prev => some (prev, c2)

/-- `Parser::matches` (named `matchesL` here since `matches` is reserved in
Lean): try each kind with `check`, advancing past the first hit. -/
def matchesL (tks : List Token) (c : Nat) : List TokenType → Option (Bool × Nat)
  | [] => some (false, c)
  | tt :: tts =>
    match check tks c tt with
    | none => none
    | some true =>
      match advance tks c with
      | none => none
      | some (_, c2) => some (true, c2)
    | some false => matchesL tks c tts

/-- A single-quote character, for the `" at '{}'"` format used by
`Lox::parse_error`. -/
def squote : String := String.mk [Char.ofNat 39]

/-- `Parser::error`, i.e. `Lox::parse_error` followed by `Lox::report`: the
diagnostic for a parse error at `tok` (`" at end"` for `EOF`, else the
quoted lexeme). -/
def parse_error_diag (tok : Token) (msg : String) : Diag :=
  if tok.token_type = .EOF then ⟨tok.line, " at end", msg⟩
  else ⟨tok.line, " at " ++ squote ++ tok.lexeme ++ squote, msg⟩

/-- The message passed to `consume` in `Parser::primary`:
`Expect ')' after expression.` -/
def expect_rparen_msg : String :=
  "Expect " ++ squote ++ ")" ++ squote ++ " after expression."

/-- Result of `Parser::consume`. -/
inductive CRes where
  | ok (tok : Token) (c : Nat) (ds : List Diag)
  | err (c : Nat) (ds : List Diag)
  | panicIdx
  deriving DecidableEq, Repr

/-- `Parser::consume`: advance past the expected kind, or report through
`Parser::error` and fail with `ParseError`. -/
def consume (tks : List Token) (c : Nat) (ds : List Diag) (tt : TokenType)
    (msg : String) : CRes :=
  match check tks c tt with
  | none => .panicIdx
  | some true =>
    match advance tks c with
    | none => .panicIdx
    | some (tok, c2) => .ok tok c2 ds
  | some false =>
    match peek tks c with
    | none => .panicIdx
    | some tok => .err c (ds ++ [parse_error_diag tok msg])

/-- `Parser::token_op_to_expr_binops`; `none` models the
`panic!("wtf binary")` branch. -/
def token_op_to_expr_binops : TokenType → Option BinaryOp
  | .BANG_EQUAL => some .BangEqual
  | .EQUAL_EQUAL => some .EqualEqual
  | .GREATER => some .Greater
  | .GREATER_EQUAL => some .GreaterEqual
  | .LESS => some .Less
  | .LESS_EQUAL => some .LessEqual
  | .SLASH => some .Slash
  | .STAR => some .Star
  | .MINUS => some .Minus
  | .PLUS => some .Plus
  | _ => none

/-- `Parser::token_op_to_expr_unops`; `none` models the
`panic!("wtf unary")` branch. -/
def token_op_to_expr_unops : TokenType → Option UnaryOp
  | .BANG => some .Bang
  | .MINUS => some .Minus
  | _ => none

mutual

/-- `Parser::expression`. -/
def expression : Nat → List Token → Nat → List Diag → PRes
  | 0, _, _, _ => .fuelOut
  | f + 1, tks, c, ds => equality f tks c ds

termination_by structural f _ _ _ => f

/-- `Parser::equality`: `comparison`, then the `!=`/`==` folding loop. -/
def equality : Nat → List Token → Nat → List Diag → PRes
  | 0, _, _, _ => .fuelOut
  | f + 1, tks, c, ds =>
    match comparison f tks c ds with
    | .ok e c2 ds2 => equality_loop f tks e c2 ds2
    | r => r

termination_by structural f _ _ _ => f

/-- The `while self.matches(..)` loop of `Parser::equality`; the right
operand of each fold is a `comparison`. -/
def equality_loop : Nat → List Token → Expr → Nat → List Diag → PRes
  | 0, _, _, _, _ => .fuelOut
  | f + 1, tks, e, c, ds =>
    match matchesL tks c [.BANG_EQUAL, .EQUAL_EQUAL] with
    | none => .panicIdx
    | some (false, c2) => .ok e c2 ds
    | some (true, c2) =>
      match previous tks c2 with
      | none => .panicIdx
      | some opTok =>
        match token_op_to_expr_binops opTok.token_type with
        | none => .panicOp
        | some op =>
          match comparison f tks c2 ds with
          | .ok rhs c3 ds3 => equality_loop f tks (.Binary e op rhs) c3 ds3
          | r => r

termination_by structural f _ _ _ _ => f

/-- `Parser::comparison`: `term`, then the comparison-operator folding
loop. -/
def comparison : Nat → List Token → Nat → List Diag → PRes
  | 0, _, _, _ => .fuelOut
  | f + 1, tks, c, ds =>
    match term f tks c ds with
    | .ok e c2 ds2 => comparison_loop f tks e c2 ds2
    | r => r

termination_by structural f _ _ _ => f

/-- The `while self.matches(..)` loop of `Parser::comparison`.  As in the
source, the right operand recurses into `comparison` itself (not `term`). -/
def comparison_loop : Nat → List Token → Expr → Nat → List Diag → PRes
  | 0, _, _, _, _ => .fuelOut
  | f + 1, tks, e, c, ds =>
    match matchesL tks c [.GREATER, .GREATER_EQUAL, .LESS, .LESS_EQUAL] with
    | none => .panicIdx
    | some (false, c2) => .ok e c2 ds
    | some (true, c2) =>
      match previous tks c2 with
      | none => .panicIdx
      | some opTok =>
        match token_op_to_expr_binops opTok.token_type with
        | none => .panicOp
        | some op =>
          match comparison f tks c2 ds with
          | .ok rhs c3 ds3 => comparison_loop f tks (.Binary e op rhs) c3 ds3
          | r => r

termination_by structural f _ _ _ _ => f

/-- `Parser::term`: `factor`, then the `+`/`-` folding loop. -/
def term : Nat → List Token → Nat → List Diag → PRes
  | 0, _, _, _ => .fuelOut
  | f + 1, tks, c, ds =>
    match factor f tks c ds with
    | .ok e c2 ds2 => term_loop f tks e c2 ds2
    | r => r

termination_by structural f _ _ _ => f

/-- The `while self.matches(..)` loop of `Parser::term`; the right operand
of each fold is a `factor`. -/
def term_loop : Nat → List Token → Expr → Nat → List Diag → PRes
  | 0, _, _, _, _ => .fuelOut
  | f + 1, tks, e, c, ds =>
    match matchesL tks c [.PLUS, .MINUS] with
    | none => .panicIdx
    | some (false, c2) => .ok e c2 ds
    | some (true, c2) =>
      match previous tks c2 with
      | none => .panicIdx
      | some opTok =>
        match token_op_to_expr_binops opTok.token_type with
        | none => .panicOp
        | some op =>
          match factor f tks c2 ds with
          | .ok rhs c3 ds3 => term_loop f tks (.Binary e op rhs) c3 ds3
          | r => r

termination_by structural f _ _ _ _ => f

/-- `Parser::factor`: `unary`, then the `/`/`*` folding loop. -/
def factor : Nat → List Token → Nat → List Diag → PRes
  | 0, _, _, _ => .fuelOut
  | f + 1, tks, c, ds =>
    match unary f tks c ds with
    | .ok e c2 ds2 => factor_loop f tks e c2 ds2
    | r => r

termination_by structural f _ _ _ => f

/-- The `while self.matches(..)` loop of `Parser::factor`; the right operand
of each fold is a `unary`. -/
def factor_loop : Nat → List Token → Expr → Nat → List Diag → PRes
  | 0, _, _, _, _ => .fuelOut
  | f + 1, tks, e, c, ds =>
    match matchesL tks c [.SLASH, .STAR] with
    | none => .panicIdx
    | some (false, c2) => .ok e c2 ds
    | some (true, c2) =>
      match previous tks c2 with
      | none => .panicIdx
      | some opTok =>
        match token_op_to_expr_binops opTok.token_type with
        | none => .panicOp
        | some op =>
          match unary f tks c2 ds with
          | .ok rhs c3 ds3 => factor_loop f tks (.Binary e op rhs) c3 ds3
          | r => r

termination_by structural f _ _ _ _ => f

/-- `Parser::unary`: prefix `!`/`-` recursing into `unary`, else
`primary`. -/
def unary : Nat → List Token → Nat → List Diag → PRes
  | 0, _, _, _ => .fuelOut
  | f + 1, tks, c, ds =>
    match matchesL tks c [.BANG, .MINUS] with
    | none => .panicIdx
    | some (true, c2) =>
      match previous tks c2 with
      | none => .panicIdx
      | some opTok =>
        match token_op_to_expr_unops opTok.token_type with
        | none => .panicOp
        | some op =>
          match unary f tks c2 ds with
          | .ok rhs c3 ds3 => .ok (.Unary op rhs) c3 ds3
          | r => r
    | some (false, _) => primary f tks c ds

termination_by structural f _ _ _ => f

/-- `Parser::primary`: literal alternatives, the parenthesised expression,
or the `Expect expression.` error. -/
def primary : Nat → List Token → Nat → List Diag → PRes
  | 0, _, _, _ => .fuelOut
  | f + 1, tks, c, ds =>
    match matchesL tks c [.FALSE] with
    | none => .panicIdx
    | some (true, c2) => .ok (.Literal .False) c2 ds
    | some (false, _) =>
    match matchesL tks c [.TRUE] with
    | none => .panicIdx
    | some (true, c2) => .ok (.Literal .True) c2 ds
    | some (false, _) =>
    match matchesL tks c [.NIL] with
    | none => .panicIdx
    | some (true, c2) => .ok (.Literal .Nil) c2 ds
    | some (false, _) =>
    match matchesL tks c [.STRING] with
    | none => .panicIdx
    | some (true, c2) =>
      match previous tks c2 with
      | none => .panicIdx
      | some tok =>
        match tok.literal with
        | some (.Str s) => .ok (.Literal (.Str s)) c2 ds
        | _ => .err c2 ds
    | some (false, _) =>
    match matchesL tks c [.NUMBER] with
    | none => .panicIdx
    | some (true, c2) =>
      match previous tks c2 with
      | none => .panicIdx
      | some tok =>
        match tok.literal with
        | some (.Number v) => .ok (.Literal (.Number v)) c2 ds
        | _ => .err c2 ds
    | some (false, _) =>
    match matchesL tks c [.LEFT_PAREN] with
    | none => .panicIdx
    | some (true, c2) =>
      match expression f tks c2 ds with
      | .ok e c3 ds3 =>
        match consume tks c3 ds3 .RIGHT_PAREN expect_rparen_msg with
        | .ok _ c4 ds4 => .ok (.Grouping e) c4 ds4
        | .err c4 ds4 => .err c4 ds4
        | .panicIdx => .panicIdx
      | r => r
    | some (false, _) =>
    match peek tks c with
    | none => .panicIdx
    | some tok => .err c (ds ++ [parse_error_diag tok "Expect expression."])

termination_by structural f _ _ _ => f
end

/-- Outcome of `Parser::parse`, together with the diagnostics reported. -/
inductive ParseOutcome where
  | some (e : Expr) (ds : List Diag)
  | none (ds : List Diag)
  | panicIdx
  | panicOp
  | fuelOut
  deriving DecidableEq, Repr

/-- `Parser::new(tokens)` followed by `Parser::parse` (cursor 0, no
diagnostics yet): `Some` on success, `None` on `ParseError`. -/
def parse (tks : List Token) (fuel : Nat) : ParseOutcome :=
  match expression fuel tks 0 [] with
  | .ok e _ ds => .some e ds
  | .err _ ds => .none ds
  | .panicIdx => .panicIdx
  | .panicOp => .panicOp
  | .fuelOut => .fuelOut

/-- Well-formed token sequences: non-empty and exactly the last token has
kind `EOF` — the shape `Scanner::scan_tokens` output has. -/
def wf_tokens (tks : List Token) : Bool :=
  !tks.isEmpty &&
  (List.range tks.length).all (fun i =>
    ((tks.get? i).map (fun tok =>
      decide (tok.token_type = TokenType.EOF) == decide (i = tks.length - 1))).getD true)

/-- The invariant every parser production preserves on a well-formed token
list: no out-of-bounds token access, no operator-mapping panic, and on a
normal return (success or `ParseError`) the cursor is strictly below the
token-list length. -/
def PResOk (tks : List Token) (r : PRes) : Prop :=
  r ≠ PRes.panicIdx ∧ r ≠ PRes.panicOp ∧
  (∀ e c2 ds2, r = PRes.ok e c2 ds2 → c2 < tks.length) ∧
  (∀ c2 ds2, r = PRes.err c2 ds2 → c2 < tks.length)

lemma PResOk_ok {tks : List Token} {e : Expr} {c2 : Nat} {ds2 : List Diag}
    (h : c2 < tks.length) : PResOk tks (.ok e c2 ds2) := by
  refine ⟨by simp, by simp, ?_, ?_⟩
  · intro e3 c3 ds3 he
    cases he
    exact h
  · intro c3 ds3 he
    cases he

lemma PResOk_err {tks : List Token} {c2 : Nat} {ds2 : List Diag}
    (h : c2 < tks.length) : PResOk tks (.err c2 ds2) := by
  refine ⟨by simp, by simp, ?_, ?_⟩
  · intro e3 c3 ds3 he
    cases he
  · intro c3 ds3 he
    cases he
    exact h

lemma PResOk_fuelOut {tks : List Token} : PResOk tks .fuelOut := by
  refine ⟨by simp, by simp, ?_, ?_⟩
  · intro e3 c3 ds3 he
    cases he
  · intro c3 ds3 he
    cases he

lemma wf_tokens_pos {tks : List Token} (h : wf_tokens tks = true) : 0 < tks.length := by
  cases tks with
  | nil => simp [wf_tokens] at h
  | cons a l => simp

lemma wf_tokens_get {tks : List Token} (h : wf_tokens tks = true) {i : Nat} {tok : Token}
    (hget : tks.get? i = some tok) :
    tok.token_type = TokenType.EOF ↔ i = tks.length - 1 := by
  have hi : i < tks.length := (List.get?_eq_some.mp hget).1
  have h2 := (Bool.and_eq_true _ _).mp h |>.2
  rw [List.all_eq_true] at h2
  have h3 := h2 i (List.mem_range.mpr hi)
  rw [hget] at h3
  simp only [Option.map_some', Option.getD_some, beq_iff_eq, decide_eq_decide] at h3
  exact h3

lemma wf_next_lt {tks : List Token} (hwf : wf_tokens tks = true) {c : Nat} {tok : Token}
    (hget : tks.get? c = some tok) (hne : tok.token_type ≠ TokenType.EOF) :
    c + 1 < tks.length := by
  have hc : c < tks.length := (List.get?_eq_some.mp hget).1
  have hiff := wf_tokens_get hwf hget
  have hcne : c ≠ tks.length - 1 := fun he => hne (hiff.mpr he)
  omega

lemma check_eq_true {tks : List Token} {c : Nat} {tt : TokenType}
    (h : check tks c tt = some true) :
    ∃ tok, tks.get? c = some tok ∧ tok.token_type = tt ∧
      tok.token_type ≠ TokenType.EOF := by
  unfold check peek at h
  cases hg : tks.get? c with
  | none => rw [hg] at h; cases h
  | some tok =>
    rw [hg] at h
    by_cases he : tok.token_type = TokenType.EOF
    · simp [he] at h
    · simp only [he, if_false, Option.some_inj, decide_eq_true_eq] at h
      exact ⟨tok, rfl, h, he⟩

lemma check_ne_none {tks : List Token} {c : Nat} (hc : c < tks.length) (tt : TokenType) :
    check tks c tt ≠ none := by
  unfold check peek
  rw [List.get?_eq_get hc]
  simp

lemma check_true_full {tks : List Token} {c : Nat} {tt : TokenType}
    (h : check tks c tt = some true) :
    ∃ tok, tks.get? c = some tok ∧ tok.token_type = tt ∧
      tok.token_type ≠ TokenType.EOF ∧ advance tks c = some (tok, c + 1) ∧
      previous tks (c + 1) = some tok := by
  obtain ⟨tok, hg, hteq, hne⟩ := check_eq_true h
  have hprev : previous tks (c + 1) = some tok := by
    simpa [previous] using hg
  refine ⟨tok, hg, hteq, hne, ?_, hprev⟩
  unfold advance peek
  rw [hg]
  simp only [if_neg hne, previous]
  rw [hg]

lemma matchesL_true_spec {tks : List Token} {c c2 : Nat} :
    ∀ {ts : List TokenType}, matchesL tks c ts = some (true, c2) →
      ∃ tok, tks.get? c = some tok ∧ tok.token_type ∈ ts ∧
        tok.token_type ≠ TokenType.EOF ∧ c2 = c + 1 ∧
        previous tks c2 = some tok := by
  intro ts
  induction ts with
  | nil => intro h; simp [matchesL] at h
  | cons tt tts ih =>
    intro h
    cases hch : check tks c tt with
    | none => simp [matchesL, hch] at h
    | some b =>
      cases b with
      | false =>
        simp only [matchesL, hch] at h
        obtain ⟨tok, hg, hmem, hne, hc2, hprev⟩ := ih h
        exact ⟨tok, hg, List.mem_cons_of_mem _ hmem, hne, hc2, hprev⟩
      | true =>
        obtain ⟨tok, hg, hteq, hne, hadv, hprev⟩ := check_true_full hch
        simp only [matchesL, hch, hadv, Option.some_inj, Prod.mk.injEq, true_and] at h
        exact ⟨tok, hg, hteq ▸ List.mem_cons_self _ _, hne, h.symm, h ▸ hprev⟩

lemma matchesL_false_spec {tks : List Token} {c c2 : Nat} :
    ∀ {ts : List TokenType}, matchesL tks c ts = some (false, c2) → c2 = c := by
  intro ts
  induction ts with
  | nil =>
    intro h
    simp only [matchesL, Option.some_inj, Prod.mk.injEq, true_and] at h
    exact h.symm
  | cons tt tts ih =>
    intro h
    cases hch : check tks c tt with
    | none => simp [matchesL, hch] at h
    | some b =>
      cases b with
      | true =>
        obtain ⟨tok, _, _, _, hadv, _⟩ := check_true_full hch
        simp [matchesL, hch, hadv] at h
      | false =>
        simp only [matchesL, hch] at h
        exact ih h

lemma matchesL_ne_none {tks : List Token} {c : Nat} (hc : c < tks.length) :
    ∀ ts, matchesL tks c ts ≠ none := by
  intro ts
  induction ts with
  | nil => simp [matchesL]
  | cons tt tts ih =>
    cases hch : check tks c tt with
    | none => exact absurd hch (check_ne_none hc tt)
    | some b =>
      cases b with
      | true =>
        obtain ⟨tok, _, _, _, hadv, _⟩ := check_true_full hch
        simp [matchesL, hch, hadv]
      | false =>
        simp only [matchesL, hch]
        exact ih

lemma binops_eq_total {t : TokenType}
    (h : t ∈ [TokenType.BANG_EQUAL, TokenType.EQUAL_EQUAL]) :
    ∃ op, token_op_to_expr_binops t = some op := by
  fin_cases h <;> exact ⟨_, rfl⟩

lemma binops_comp_total {t : TokenType}
    (h : t ∈ [TokenType.GREATER, TokenType.GREATER_EQUAL, TokenType.LESS,
      TokenType.LESS_EQUAL]) :
    ∃ op, token_op_to_expr_binops t = some op := by
  fin_cases h <;> exact ⟨_, rfl⟩

lemma binops_term_total {t : TokenType}
    (h : t ∈ [TokenType.PLUS, TokenType.MINUS]) :
    ∃ op, token_op_to_expr_binops t = some op := by
  fin_cases h <;> exact ⟨_, rfl⟩

lemma binops_factor_total {t : TokenType}
    (h : t ∈ [TokenType.SLASH, TokenType.STAR]) :
    ∃ op, token_op_to_expr_binops t = some op := by
  fin_cases h <;> exact ⟨_, rfl⟩

lemma unops_total {t : TokenType}
    (h : t ∈ [TokenType.BANG, TokenType.MINUS]) :
    ∃ op, token_op_to_expr_unops t = some op := by
  fin_cases h <;> exact ⟨_, rfl⟩

lemma consume_ne_panic {tks : List Token} {c : Nat} {ds : List Diag} {tt : TokenType}
    {msg : String} (hc : c < tks.length) :
    consume tks c ds tt msg ≠ .panicIdx := by
  unfold consume
  cases hch : check tks c tt with
  | none => exact absurd hch (check_ne_none hc tt)
  | some b =>
    cases b with
    | true =>
      obtain ⟨tok, _, _, _, hadv, _⟩ := check_true_full hch
      rw [hadv]
      simp
    | false =>
      unfold peek
      rw [List.get?_eq_get hc]
      simp

lemma consume_ok_lt {tks : List Token} {c c2 : Nat} {ds ds2 : List Diag}
    {tt : TokenType} {msg : String} {tok : Token}
    (hwf : wf_tokens tks = true)
    (h : consume tks c ds tt msg = .ok tok c2 ds2) : c2 < tks.length := by
  unfold consume at h
  cases hch : check tks c tt with
  | none => rw [hch] at h; cases h
  | some b =>
    cases b with
    | true =>
      obtain ⟨tok3, hg, _, hne, hadv, _⟩ := check_true_full hch
      rw [hch, hadv] at h
      cases h
      exact wf_next_lt hwf hg hne
    | false =>
      rw [hch] at h
      cases hp : tks.get? c with
      | none => rw [show peek tks c = none from hp] at h; cases h
      | some tok4 => rw [show peek tks c = some tok4 from hp] at h; cases h

lemma consume_err_eq {tks : List Token} {c c2 : Nat} {ds ds2 : List Diag}
    {tt : TokenType} {msg : String}
    (h : consume tks c ds tt msg = .err c2 ds2) : c2 = c := by
  unfold consume at h
  cases hch : check tks c tt with
  | none => rw [hch] at h; cases h
  | some b =>
    cases b with
    | true =>
      rw [hch] at h
      cases hadv : advance tks c with
      | none => rw [hadv] at h; cases h
      | some p => rw [hadv] at h; cases h
    | false =>
      rw [hch] at h
      cases hp : peek tks c with
      | none => rw [hp] at h; cases h
      | some tok => rw [hp] at h; cases h; rfl

/-- The master invariant: on a well-formed token list, every production,
run at a cursor strictly inside the list, neither indexes out of bounds nor
reaches an operator-mapping panic, and any cursor it returns is again
strictly inside the list.  Proved for every fuel value by induction on the
fuel. -/
lemma parser_inv (tks : List Token) (hwf : wf_tokens tks = true) :
    ∀ f : Nat,
      (∀ c ds, c < tks.length → PResOk tks (expression f tks c ds)) ∧
      (∀ c ds, c < tks.length → PResOk tks (equality f tks c ds)) ∧
      (∀ e c ds, c < tks.length → PResOk tks (equality_loop f tks e c ds)) ∧
      (∀ c ds, c < tks.length → PResOk tks (comparison f tks c ds)) ∧
      (∀ e c ds, c < tks.length → PResOk tks (comparison_loop f tks e c ds)) ∧
      (∀ c ds, c < tks.length → PResOk tks (term f tks c ds)) ∧
      (∀ e c ds, c < tks.length → PResOk tks (term_loop f tks e c ds)) ∧
      (∀ c ds, c < tks.length → PResOk tks (factor f tks c ds)) ∧
      (∀ e c ds, c < tks.length → PResOk tks (factor_loop f tks e c ds)) ∧
      (∀ c ds, c < tks.length → PResOk tks (unary f tks c ds)) ∧
      (∀ c ds, c < tks.length → PResOk tks (primary f tks c ds)) := by
  intro f
  induction f with
  | zero =>
    refine ⟨?_, ?_, ?_, ?_, ?_, ?_, ?_, ?_, ?_, ?_, ?_⟩ <;> intros <;> exact PResOk_fuelOut
  | succ f ih =>
    obtain ⟨ihE, ihQ, ihQL, ihC, ihCL, ihT, ihTL, ihF, ihFL, ihU, ihP⟩ := ih
    refine ⟨?_, ?_, ?_, ?_, ?_, ?_, ?_, ?_, ?_, ?_, ?_⟩
    -- expression
    · intro c ds hc
      simp only [expression]
      exact ihQ c ds hc
    -- equality
    · intro c ds hc
      simp only [equality]
      split
      next e c2 ds2 hcm =>
        exact ihQL e c2 ds2 ((ihC c ds hc).2.2.1 e c2 ds2 hcm)
      next r hcm =>
        exact ihC c ds hc
    -- equality_loop
    · intro e c ds hc
      simp only [equality_loop]
      split
      next hm => exact absurd hm (matchesL_ne_none hc _)
      next c2 hm =>
        have h2 := matchesL_false_spec hm
        exact PResOk_ok (by omega)
      next c2 hm =>
        obtain ⟨tok, hg, hmem, hne, hc2, hprev⟩ := matchesL_true_spec hm
        have hlt : c2 < tks.length := by
          subst hc2; exact wf_next_lt hwf hg hne
        split
        next hp => rw [hp] at hprev; cases hprev
        next opTok hp =>
          rw [hp] at hprev
          injection hprev with hopeq
          subst hopeq
          obtain ⟨op, hop⟩ := binops_eq_total hmem
          split
          next hbo => rw [hbo] at hop; cases hop
          next op2 hbo =>
            split
            next rhs c3 ds3 hcm =>
              exact ihQL _ c3 ds3 ((ihC c2 ds hlt).2.2.1 rhs c3 ds3 hcm)
            next r hcm => exact ihC c2 ds hlt
    -- comparison
    · intro c ds hc
      simp only [comparison]
      split
      next e c2 ds2 hcm =>
        exact ihCL e c2 ds2 ((ihT c ds hc).2.2.1 e c2 ds2 hcm)
      next r hcm =>
        exact ihT c ds hc
    -- comparison_loop
    · intro e c ds hc
      simp only [comparison_loop]
      split
      next hm => exact absurd hm (matchesL_ne_none hc _)
      next c2 hm =>
        have h2 := matchesL_false_spec hm
        exact PResOk_ok (by omega)
      next c2 hm =>
        obtain ⟨tok, hg, hmem, hne, hc2, hprev⟩ := matchesL_true_spec hm
        have hlt : c2 < tks.length := by
          subst hc2; exact wf_next_lt hwf hg hne
        split
        next hp => rw [hp] at hprev; cases hprev
        next opTok hp =>
          rw [hp] at hprev
          injection hprev with hopeq
          subst hopeq
          obtain ⟨op, hop⟩ := binops_comp_total hmem
          split
          next hbo => rw [hbo] at hop; cases hop
          next op2 hbo =>
            split
            next rhs c3 ds3 hcm =>
              exact ihCL _ c3 ds3 ((ihC c2 ds hlt).2.2.1 rhs c3 ds3 hcm)
            next r hcm => exact ihC c2 ds hlt
    -- term
    · intro c ds hc
      simp only [term]
      split
      next e c2 ds2 hcm =>
        exact ihTL e c2 ds2 ((ihF c ds hc).2.2.1 e c2 ds2 hcm)
      next r hcm =>
        exact ihF c ds hc
    -- term_loop
    · intro e c ds hc
      simp only [term_loop]
      split
      next hm => exact absurd hm (matchesL_ne_none hc _)
      next c2 hm =>
        have h2 := matchesL_false_spec hm
        exact PResOk_ok (by omega)
      next c2 hm =>
        obtain ⟨tok, hg, hmem, hne, hc2, hprev⟩ := matchesL_true_spec hm
        have hlt : c2 < tks.length := by
          subst hc2; exact wf_next_lt hwf hg hne
        split
        next hp => rw [hp] at hprev; cases hprev
        next opTok hp =>
          rw [hp] at hprev
          injection hprev with hopeq
          subst hopeq
          obtain ⟨op, hop⟩ := binops_term_total hmem
          split
          next hbo => rw [hbo] at hop; cases hop
          next op2 hbo =>
            split
            next rhs c3 ds3 hcm =>
              exact ihTL _ c3 ds3 ((ihF c2 ds hlt).2.2.1 rhs c3 ds3 hcm)
            next r hcm => exact ihF c2 ds hlt
    -- factor
    · intro c ds hc
      simp only [factor]
      split
      next e c2 ds2 hcm =>
        exact ihFL e c2 ds2 ((ihU c ds hc).2.2.1 e c2 ds2 hcm)
      next r hcm =>
        exact ihU c ds hc
    -- factor_loop
    · intro e c ds hc
      simp only [factor_loop]
      split
      next hm => exact absurd hm (matchesL_ne_none hc _)
      next c2 hm =>
        have h2 := matchesL_false_spec hm
        exact PResOk_ok (by omega)
      next c2 hm =>
        obtain ⟨tok, hg, hmem, hne, hc2, hprev⟩ := matchesL_true_spec hm
        have hlt : c2 < tks.length := by
          subst hc2; exact wf_next_lt hwf hg hne
        split
        next hp => rw [hp] at hprev; cases hprev
        next opTok hp =>
          rw [hp] at hprev
          injection hprev with hopeq
          subst hopeq
          obtain ⟨op, hop⟩ := binops_factor_total hmem
          split
          next hbo => rw [hbo] at hop; cases hop
          next op2 hbo =>
            split
            next rhs c3 ds3 hcm =>
              exact ihFL _ c3 ds3 ((ihU c2 ds hlt).2.2.1 rhs c3 ds3 hcm)
            next r hcm => exact ihU c2 ds hlt
    -- unary
    · intro c ds hc
      simp only [unary]
      split
      next hm => exact absurd hm (matchesL_ne_none hc _)
      next c2 hm =>
        obtain ⟨tok, hg, hmem, hne, hc2, hprev⟩ := matchesL_true_spec hm
        have hlt : c2 < tks.length := by
          subst hc2; exact wf_next_lt hwf hg hne
        split
        next hp => rw [hp] at hprev; cases hprev
        next opTok hp =>
          rw [hp] at hprev
          injection hprev with hopeq
          subst hopeq
          obtain ⟨op, hop⟩ := unops_total hmem
          split
          next hbo => rw [hbo] at hop; cases hop
          next op2 hbo =>
            split
            next rhs c3 ds3 hcm =>
              exact PResOk_ok ((ihU c2 ds hlt).2.2.1 rhs c3 ds3 hcm)
            next r hcm => exact ihU c2 ds hlt
      next c2 hm =>
        exact ihP c ds hc
    -- primary
    · intro c ds hc
      simp only [primary]
      split
      next hm => exact absurd hm (matchesL_ne_none hc _)
      next c2 hm =>
        obtain ⟨tok, hg, hmem, hne, hc2, hprev⟩ := matchesL_true_spec hm
        exact PResOk_ok (by subst hc2; exact wf_next_lt hwf hg hne)
      next hm1 =>
        split
        next hm => exact absurd hm (matchesL_ne_none hc _)
        next c2 hm =>
          obtain ⟨tok, hg, hmem, hne, hc2, hprev⟩ := matchesL_true_spec hm
          exact PResOk_ok (by subst hc2; exact wf_next_lt hwf hg hne)
        next hm2 =>
          split
          next hm => exact absurd hm (matchesL_ne_none hc _)
          next c2 hm =>
            obtain ⟨tok, hg, hmem, hne, hc2, hprev⟩ := matchesL_true_spec hm
            exact PResOk_ok (by subst hc2; exact wf_next_lt hwf hg hne)
          next hm3 =>
            split
            next hm => exact absurd hm (matchesL_ne_none hc _)
            next c2 hm =>
              obtain ⟨tok, hg, hmem, hne, hc2, hprev⟩ := matchesL_true_spec hm
              have hlt : c2 < tks.length := by
                subst hc2; exact wf_next_lt hwf hg hne
              split
              next hp => rw [hp] at hprev; cases hprev
              next tok5 hp =>
                rw [hp] at hprev
                injection hprev with hopeq
                subst hopeq
                split
                next s hlit => exact PResOk_ok hlt
                next hlit1 hlit2 => exact PResOk_err hlt
            next hm4 =>
              split
              next hm => exact absurd hm (matchesL_ne_none hc _)
              next c2 hm =>
                obtain ⟨tok, hg, hmem, hne, hc2, hprev⟩ := matchesL_true_spec hm
                have hlt : c2 < tks.length := by
                  subst hc2; exact wf_next_lt hwf hg hne
                split
                next hp => rw [hp] at hprev; cases hprev
                next tok5 hp =>
                  rw [hp] at hprev
                  injection hprev with hopeq
                  subst hopeq
                  split
                  next v hlit => exact PResOk_ok hlt
                  next hlit1 hlit2 => exact PResOk_err hlt
              next hm5 =>
                split
                next hm => exact absurd hm (matchesL_ne_none hc _)
                next c2 hm =>
                  obtain ⟨tok, hg, hmem, hne, hc2, hprev⟩ := matchesL_true_spec hm
                  have hlt : c2 < tks.length := by
                    subst hc2; exact wf_next_lt hwf hg hne
                  split
                  next e c3 ds3 hcm =>
                    have hlt3 : c3 < tks.length := (ihE c2 ds hlt).2.2.1 e c3 ds3 hcm
                    split
                    next tok4 c4 ds4 hcons =>
                      exact PResOk_ok (consume_ok_lt hwf hcons)
                    next c4 ds4 hcons =>
                      have h4 := consume_err_eq hcons
                      exact PResOk_err (by omega)
                    next hcons => exact absurd hcons (consume_ne_panic hlt3)
                  next r hcm => exact ihE c2 ds hlt
                next hm6 =>
                  split
                  next hp =>
                    exact absurd hp (by unfold peek; rw [List.get?_eq_get hc]; simp)
                  next tok hp =>
                    exact PResOk_err hc

/-- Operator-mapping safety needs no well-formedness at all: whatever the
token list, cursor and diagnostics, no production ever returns the
operator-mapping panic, because `token_op_to_expr_binops` and
`token_op_to_expr_unops` are only applied to the kind of the token that
`matches` just accepted.  Proved for every fuel value by induction on the
fuel. -/
lemma parser_noOp_inv :
    ∀ f : Nat, ∀ tks : List Token,
      (∀ c ds, expression f tks c ds ≠ PRes.panicOp) ∧
      (∀ c ds, equality f tks c ds ≠ PRes.panicOp) ∧
      (∀ e c ds, equality_loop f tks e c ds ≠ PRes.panicOp) ∧
      (∀ c ds, comparison f tks c ds ≠ PRes.panicOp) ∧
      (∀ e c ds, comparison_loop f tks e c ds ≠ PRes.panicOp) ∧
      (∀ c ds, term f tks c ds ≠ PRes.panicOp) ∧
      (∀ e c ds, term_loop f tks e c ds ≠ PRes.panicOp) ∧
      (∀ c ds, factor f tks c ds ≠ PRes.panicOp) ∧
      (∀ e c ds, factor_loop f tks e c ds ≠ PRes.panicOp) ∧
      (∀ c ds, unary f tks c ds ≠ PRes.panicOp) ∧
      (∀ c ds, primary f tks c ds ≠ PRes.panicOp) := by
  intro f
  induction f with
  | zero =>
    intro tks
    refine ⟨?_, ?_, ?_, ?_, ?_, ?_, ?_, ?_, ?_, ?_, ?_⟩ <;> intros <;>
      simp [expression, equality, equality_loop, comparison, comparison_loop,
        term, term_loop, factor, factor_loop, unary, primary]
  | succ f ih =>
    intro tks
    obtain ⟨ihE, ihQ, ihQL, ihC, ihCL, ihT, ihTL, ihF, ihFL, ihU, ihP⟩ := ih tks
    refine ⟨?_, ?_, ?_, ?_, ?_, ?_, ?_, ?_, ?_, ?_, ?_⟩
    -- expression
    · intro c ds
      simp only [expression]
      exact ihQ c ds
    -- equality
    · intro c ds
      simp only [equality]
      split
      next e c2 ds2 hcm => exact ihQL e c2 ds2
      next r hcm => exact ihC c ds
    -- equality_loop
    · intro e c ds
      simp only [equality_loop]
      split
      next hm => simp
      next c2 hm => simp
      next c2 hm =>
        obtain ⟨tok, hg, hmem, hne, hc2, hprev⟩ := matchesL_true_spec hm
        split
        next hp => simp
        next opTok hp =>
          rw [hp] at hprev
          injection hprev with hopeq
          subst hopeq
          obtain ⟨op, hop⟩ := binops_eq_total hmem
          split
          next hbo => rw [hbo] at hop; cases hop
          next op2 hbo =>
            split
            next rhs c3 ds3 hcm => exact ihQL _ c3 ds3
            next r hcm => exact ihC c2 ds
    -- comparison
    · intro c ds
      simp only [comparison]
      split
      next e c2 ds2 hcm => exact ihCL e c2 ds2
      next r hcm => exact ihT c ds
    -- comparison_loop
    · intro e c ds
      simp only [comparison_loop]
      split
      next hm => simp
      next c2 hm => simp
      next c2 hm =>
        obtain ⟨tok, hg, hmem, hne, hc2, hprev⟩ := matchesL_true_spec hm
        split
        next hp => simp
        next opTok hp =>
          rw [hp] at hprev
          injection hprev with hopeq
          subst hopeq
          obtain ⟨op, hop⟩ := binops_comp_total hmem
          split
          next hbo => rw [hbo] at hop; cases hop
          next op2 hbo =>
            split
            next rhs c3 ds3 hcm => exact ihCL _ c3 ds3
            next r hcm => exact ihC c2 ds
    -- term
    · intro c ds
      simp only [term]
      split
      next e c2 ds2 hcm => exact ihTL e c2 ds2
      next r hcm => exact ihF c ds
    -- term_loop
    · intro e c ds
      simp only [term_loop]
      split
      next hm => simp
      next c2 hm => simp
      next c2 hm =>
        obtain ⟨tok, hg, hmem, hne, hc2, hprev⟩ := matchesL_true_spec hm
        split
        next hp => simp
        next opTok hp =>
          rw [hp] at hprev
          injection hprev with hopeq
          subst hopeq
          obtain ⟨op, hop⟩ := binops_term_total hmem
          split
          next hbo => rw [hbo] at hop; cases hop
          next op2 hbo =>
            split
            next rhs c3 ds3 hcm => exact ihTL _ c3 ds3
            next r hcm => exact ihF c2 ds
    -- factor
    · intro c ds
      simp only [factor]
      split
      next e c2 ds2 hcm => exact ihFL e c2 ds2
      next r hcm => exact ihU c ds
    -- factor_loop
    · intro e c ds
      simp only [factor_loop]
      split
      next hm => simp
      next c2 hm => simp
      next c2 hm =>
        obtain ⟨tok, hg, hmem, hne, hc2, hprev⟩ := matchesL_true_spec hm
        split
        next hp => simp
        next opTok hp =>
          rw [hp] at hprev
          injection hprev with hopeq
          subst hopeq
          obtain ⟨op, hop⟩ := binops_factor_total hmem
          split
          next hbo => rw [hbo] at hop; cases hop
          next op2 hbo =>
            split
            next rhs c3 ds3 hcm => exact ihFL _ c3 ds3
            next r hcm => exact ihU c2 ds
    -- unary
    · intro c ds
      simp only [unary]
      split
      next hm => simp
      next c2 hm =>
        obtain ⟨tok, hg, hmem, hne, hc2, hprev⟩ := matchesL_true_spec hm
        split
        next hp => simp
        next opTok hp =>
          rw [hp] at hprev
          injection hprev with hopeq
          subst hopeq
          obtain ⟨op, hop⟩ := unops_total hmem
          split
          next hbo => rw [hbo] at hop; cases hop
          next op2 hbo =>
            split
            next rhs c3 ds3 hcm => simp
            next r hcm => exact ihU c2 ds
      next c2 hm => exact ihP c ds
    -- primary
    · intro c ds
      simp only [primary]
      split
      next hm => simp
      next c2 hm => simp
      next hm1 =>
        split
        next hm => simp
        next c2 hm => simp
        next hm2 =>
          split
          next hm => simp
          next c2 hm => simp
          next hm3 =>
            split
            next hm => simp
            next c2 hm =>
              split
              next hp => simp
              next tok5 hp =>
                split
                next s hlit => simp
                next hlit1 hlit2 => simp
            next hm4 =>
              split
              next hm => simp
              next c2 hm =>
                split
                next hp => simp
                next tok5 hp =>
                  split
                  next v hlit => simp
                  next hlit1 hlit2 => simp
              next hm5 =>
                split
                next hm => simp
                next c2 hm =>
                  split
                  next e c3 ds3 hcm =>
                    split
                    next tok4 c4 ds4 hcons => simp
                    next c4 ds4 hcons => simp
                    next hcons => simp
                  next r hcm => exact ihE c2 ds
                next hm6 =>
                  split
                  next hp => simp
                  next tok hp => simp


end Parser

end Jlox


namespace Jlox

/-- C1 (code bug): the claim says `scan` terminates normally on every source
string with an EOF-terminated token list, but an unterminated string literal
makes it panic: on the one-character input `"` the scanner reports the
"Unterminated string." diagnostic and then the unconditional `advance()` in
`Scanner::string` indexes `source[current]` out of bounds, so no token list
(and no EOF token) is ever produced. -/
theorem scan_lone_quote_reports_then_panics :
    scan "\"" = .panic [⟨1, "", "Unterminated string."⟩] := by decide

/-- C2 (code bug): the claim says `scan("\"abc")` yields `[EOF]` plus one
"unterminated string" diagnostic; the code does report exactly that one
diagnostic but then panics in the unconditional `advance()` after the report
(there is no early return in `Scanner::string`), so it never produces the
`[EOF]` token list. -/
theorem scan_unterminated_string_reports_then_panics :
    scan "\"abc" = .panic [⟨1, "", "Unterminated string."⟩] := by decide

/-- C3 (counterexample): on the token sequence scanned from `1 < 2 < 3`, the
parser does not fold the chain left-associatively: the result is the
right-associated `Binary(1, <, Binary(2, <, 3))`, which is a different tree
from the claimed `Binary(Binary(1, <, 2), <, 3)`. -/
theorem comparison_chain_parses_right_associated :
    scan "1 < 2 < 3" = .ok
      [⟨.NUMBER, "1", some (.Number 1), 1⟩, ⟨.LESS, "<", none, 1⟩,
       ⟨.NUMBER, "2", some (.Number 2), 1⟩, ⟨.LESS, "<", none, 1⟩,
       ⟨.NUMBER, "3", some (.Number 3), 1⟩, ⟨.EOF, "", none, 1⟩] [] ∧
    Parser.parse
      [⟨.NUMBER, "1", some (.Number 1), 1⟩, ⟨.LESS, "<", none, 1⟩,
       ⟨.NUMBER, "2", some (.Number 2), 1⟩, ⟨.LESS, "<", none, 1⟩,
       ⟨.NUMBER, "3", some (.Number 3), 1⟩, ⟨.EOF, "", none, 1⟩] 50 =
      .some (.Binary (.Literal (.Number 1)) .Less
        (.Binary (.Literal (.Number 2)) .Less (.Literal (.Number 3)))) [] ∧
    Expr.Binary (.Literal (.Number 1)) .Less
        (.Binary (.Literal (.Number 2)) .Less (.Literal (.Number 3))) ≠
      Expr.Binary (.Binary (.Literal (.Number 1)) .Less (.Literal (.Number 2)))
        .Less (.Literal (.Number 3)) :=
  ⟨by decide, by decide, by decide⟩

/-- C3 (amended): because `Parser::comparison` recurses into `comparison`
itself for the right operand of each fold (instead of descending to `term`),
a comparison chain parses right-associated: `1 < 2 < 3` yields
`Binary(1, <, Binary(2, <, 3))`. -/
theorem comparison_chain_amended_right_assoc :
    Parser.parse
      [⟨.NUMBER, "1", some (.Number 1), 1⟩, ⟨.LESS, "<", none, 1⟩,
       ⟨.NUMBER, "2", some (.Number 2), 1⟩, ⟨.LESS, "<", none, 1⟩,
       ⟨.NUMBER, "3", some (.Number 3), 1⟩, ⟨.EOF, "", none, 1⟩] 50 =
      .some (.Binary (.Literal (.Number 1)) .Less
        (.Binary (.Literal (.Number 2)) .Less (.Literal (.Number 3)))) [] := by
  decide

/-- C4 (code bug): `Scanner::identifier` continues through the `char` method
`is_alphanumeric`, which rejects the underscore, instead of the scanner's own
(unused) `Scanner::is_alphanumeric`, which accepts it; hence `a_b` lexes as
the two IDENTIFIER tokens `a` and `_b` rather than the single claimed
IDENTIFIER `a_b`. -/
theorem identifier_splits_at_underscore :
    scan "a_b" = .ok
      [⟨.IDENTIFIER, "a", none, 1⟩, ⟨.IDENTIFIER, "_b", none, 1⟩,
       ⟨.EOF, "", none, 1⟩] [] ∧
    Scanner.is_alphanumeric '_' = true ∧
    char_is_alphanumeric '_' = false :=
  ⟨by decide, by decide, by decide⟩

/-- C5: `parse(scan("1 + 2 * 3"))` yields
`Binary(Literal(1), Plus, Binary(Literal(2), Star, Literal(3)))`:
multiplication binds tighter than addition. -/
theorem parse_mul_binds_tighter_than_add :
    scan "1 + 2 * 3" = .ok
      [⟨.NUMBER, "1", some (.Number 1), 1⟩, ⟨.PLUS, "+", none, 1⟩,
       ⟨.NUMBER, "2", some (.Number 2), 1⟩, ⟨.STAR, "*", none, 1⟩,
       ⟨.NUMBER, "3", some (.Number 3), 1⟩, ⟨.EOF, "", none, 1⟩] [] ∧
    Parser.parse
      [⟨.NUMBER, "1", some (.Number 1), 1⟩, ⟨.PLUS, "+", none, 1⟩,
       ⟨.NUMBER, "2", some (.Number 2), 1⟩, ⟨.STAR, "*", none, 1⟩,
       ⟨.NUMBER, "3", some (.Number 3), 1⟩, ⟨.EOF, "", none, 1⟩] 50 =
      .some (.Binary (.Literal (.Number 1)) .Plus
        (.Binary (.Literal (.Number 2)) .Star (.Literal (.Number 3)))) [] :=
  ⟨by decide, by decide⟩

/-- C6: `parse(scan("1 == 1 == 1"))` yields the left-associative chain
`Binary(Binary(Literal(1), EqualEqual, Literal(1)), EqualEqual, Literal(1))`. -/
theorem parse_equality_chain_left_associated :
    scan "1 == 1 == 1" = .ok
      [⟨.NUMBER, "1", some (.Number 1), 1⟩, ⟨.EQUAL_EQUAL, "==", none, 1⟩,
       ⟨.NUMBER, "1", some (.Number 1), 1⟩, ⟨.EQUAL_EQUAL, "==", none, 1⟩,
       ⟨.NUMBER, "1", some (.Number 1), 1⟩, ⟨.EOF, "", none, 1⟩] [] ∧
    Parser.parse
      [⟨.NUMBER, "1", some (.Number 1), 1⟩, ⟨.EQUAL_EQUAL, "==", none, 1⟩,
       ⟨.NUMBER, "1", some (.Number 1), 1⟩, ⟨.EQUAL_EQUAL, "==", none, 1⟩,
       ⟨.NUMBER, "1", some (.Number 1), 1⟩, ⟨.EOF, "", none, 1⟩] 50 =
      .some (.Binary
        (.Binary (.Literal (.Number 1)) .EqualEqual (.Literal (.Number 1)))
        .EqualEqual (.Literal (.Number 1))) [] :=
  ⟨by decide, by decide⟩

/-- C7: the number scanner consumes a trailing `.` only when at least one
ASCII digit follows it — whenever `number_tail` moves past the integer digit
run, the character there is `.` and the one after it is an ASCII digit — and
concretely `"123."` lexes to a NUMBER token `123` followed by a separate DOT
token, not a single malformed number. -/
theorem number_trailing_dot_not_consumed :
    (∀ rest : List Char, number_tail rest ≠ digit_run rest →
      peek_suffix (rest.drop (digit_run rest)) = '.' ∧
      char_is_ascii_digit (peek_suffix ((rest.drop (digit_run rest)).drop 1)) = true) ∧
    scan "123." = .ok
      [⟨.NUMBER, "123", some (.Number 123), 1⟩, ⟨.DOT, ".", none, 1⟩,
       ⟨.EOF, "", none, 1⟩] [] := by
  constructor
  · intro rest h
    cases hcnd : (peek_suffix (rest.drop (digit_run rest)) = '.' &&
        char_is_ascii_digit (peek_suffix ((rest.drop (digit_run rest)).drop 1))) with
    | true =>
      simp only [Bool.and_eq_true, decide_eq_true_eq] at hcnd
      exact ⟨hcnd.1, hcnd.2⟩
    | false =>
      exfalso
      apply h
      have hneg : ¬ ((peek_suffix (rest.drop (digit_run rest)) = '.' &&
          char_is_ascii_digit (peek_suffix ((rest.drop (digit_run rest)).drop 1))) = true) := by
        intro hcontra
        rw [hcontra] at hcnd
        cases hcnd
      simp only [number_tail]
      rw [if_neg hneg]
  · decide

/-- C7 witness: on the remaining input `.5` after a leading digit, the dot is
consumed (`number_tail ≠ digit_run`), and indeed the dot is followed by an
ASCII digit. -/
theorem number_trailing_dot_not_consumed_witness :
    peek_suffix ((['.', '5'] : List Char).drop (digit_run ['.', '5'])) = '.' ∧
    char_is_ascii_digit
      (peek_suffix (((['.', '5'] : List Char).drop (digit_run ['.', '5'])).drop 1)) = true :=
  number_trailing_dot_not_consumed.1 ['.', '5'] (by decide)

/-- C8: `parse(scan("(1 + 2"))` — missing close paren — returns a
ParseFailure (`None`), and exactly one diagnostic is emitted, at the EOF
token (`" at end"`), whose message mentions `)`. -/
theorem parse_missing_rparen_fails_with_one_diag :
    scan "(1 + 2" = .ok
      [⟨.LEFT_PAREN, "(", none, 1⟩, ⟨.NUMBER, "1", some (.Number 1), 1⟩,
       ⟨.PLUS, "+", none, 1⟩, ⟨.NUMBER, "2", some (.Number 2), 1⟩,
       ⟨.EOF, "", none, 1⟩] [] ∧
    Parser.parse
      [⟨.LEFT_PAREN, "(", none, 1⟩, ⟨.NUMBER, "1", some (.Number 1), 1⟩,
       ⟨.PLUS, "+", none, 1⟩, ⟨.NUMBER, "2", some (.Number 2), 1⟩,
       ⟨.EOF, "", none, 1⟩] 50 =
      .none [⟨1, " at end", Parser.expect_rparen_msg⟩] ∧
    ')' ∈ Parser.expect_rparen_msg.data :=
  ⟨by decide, by decide, by decide⟩

/-- C9: on every token sequence whatsoever, `parse` never reaches the
`panic!` branches of `token_op_to_expr_binops`/`token_op_to_expr_unops`:
the operator-mapping functions are only ever applied to the kind of a token
that `matches` just accepted from their matched sets, so every constructed
Binary/Unary node's operator is one of the enumerated operator kinds. -/
theorem parser_operator_mapping_totality (tks : List Token) (fuel : Nat) :
    Parser.parse tks fuel ≠ Parser.ParseOutcome.panicOp := by
  have hinv := (Parser.parser_noOp_inv fuel tks).1 0 []
  unfold Parser.parse
  cases he : Parser.expression fuel tks 0 [] with
  | ok e c ds => simp
  | err c ds => simp
  | panicIdx => simp
  | panicOp => exact absurd he hinv
  | fuelOut => simp

/-- C10: on every non-empty token sequence whose last (and only last) token
has EOF kind, the parser's cursor stays strictly below the sequence length:
`parse` never performs an out-of-bounds `peek`/`previous` access (no index
panic), and the cursor returned by the top-level `expression` — on success
or on `ParseError` — is strictly below the length. -/
theorem parser_cursor_stays_in_bounds (tks : List Token) (fuel : Nat)
    (hwf : Parser.wf_tokens tks = true) :
    Parser.parse tks fuel ≠ Parser.ParseOutcome.panicIdx ∧
    (∀ e c2 ds2, Parser.expression fuel tks 0 [] = Parser.PRes.ok e c2 ds2 →
      c2 < tks.length) ∧
    (∀ c2 ds2, Parser.expression fuel tks 0 [] = Parser.PRes.err c2 ds2 →
      c2 < tks.length) := by
  have h0 : 0 < tks.length := Parser.wf_tokens_pos hwf
  have hinv := (Parser.parser_inv tks hwf fuel).1 0 [] h0
  refine ⟨?_, hinv.2.2.1, hinv.2.2.2⟩
  unfold Parser.parse
  cases he : Parser.expression fuel tks 0 [] with
  | ok e c ds => simp
  | err c ds => simp
  | panicIdx => exact absurd he hinv.1
  | panicOp => simp
  | fuelOut => simp

/-- C10 witness: the hypotheses of `parser_cursor_stays_in_bounds` hold at
the concrete token sequence for `1`, so its parse cannot be an index
panic. -/
theorem parser_cursor_stays_in_bounds_witness :
    Parser.parse [⟨.NUMBER, "1", some (.Number 1), 1⟩, ⟨.EOF, "", none, 1⟩] 10 ≠
      Parser.ParseOutcome.panicIdx :=
  (parser_cursor_stays_in_bounds _ 10 (by decide)).1

end Jlox
